import Mathlib

/-!
# Job queue and worker-coordination subsystem: a shallow embedding

This file embeds the job-record store, leasing protocol, worker loop and
supervision manager of `src/backend` (database.py, worker_queue.py,
worker_manager.py) as executable Lean definitions, and proves the
specification's claims about them.

Modelling conventions:
* A job store is an association list `List (String × JobRecord)` keyed by the
  document/row id.  Real backends have unique keys; lemmas that need this take
  a `(storeKeys db).Nodup` hypothesis.
* Timestamps are `Nat` (Firestore `SERVER_TIMESTAMP` / `datetime.utcnow()` are
  passed in as an explicit `now` argument).
* Python strings that may be absent or empty (falsy) are `Option String`,
  with `strOpt` collapsing `some ""` to `none` to model Python truthiness.
-/

/-- `models.WorkerJobStatus`: the four job states. -/
inductive WorkerJobStatus where
  | queued
  | leased
  | completed
  | failed
deriving DecidableEq

/-- A worker-queue job record, as stored in the `worker_queue` collection /
`worker_jobs` table (`database.py`). -/
structure JobRecord where
  item_id : Option String := none
  user_email : String := ""
  job_type : String
  status : WorkerJobStatus
  attempts : Nat := 0
  worker_id : Option String := none
  lease_expires_at : Option Nat := none
  error : Option String := none
  created_at : Nat := 0
  updated_at : Nat := 0
deriving DecidableEq

/-- The job store: an association list from document/row id to record. -/
abbrev Store := List (String × JobRecord)

/-- The list of document ids of a store. -/
def storeKeys (db : Store) : List String := db.map (·.1)

/-- Look up the record stored under a given id (the first entry, matching the
unique-document semantics of both backends). -/
def findJob (jid : String) (db : Store) : Option JobRecord :=
  (db.find? (fun c => c.1 == jid)).map (·.2)

/-- Update (in place) the record stored under `jid` by `f`; other entries are
untouched.  This is the effect of a single-document / single-row update. -/
def updJob (jid : String) (f : JobRecord → JobRecord) (db : Store) : Store :=
  db.map (fun c => if c.1 = jid then (c.1, f c.2) else c)

@[simp] theorem storeKeys_nil : storeKeys [] = [] := rfl

@[simp] theorem storeKeys_cons (c : String × JobRecord) (db : Store) :
    storeKeys (c :: db) = c.1 :: storeKeys db := rfl

@[simp] theorem storeKeys_updJob (jid : String) (f : JobRecord → JobRecord) (db : Store) :
    storeKeys (updJob jid f db) = storeKeys db := by
  induction db with
  | nil => rfl
  | cons c db ih =>
      simp only [updJob, List.map_cons] at *
      by_cases h : c.1 = jid <;> simp [h, ih]

@[simp] theorem findJob_nil (jid : String) : findJob jid ([] : Store) = none := rfl

theorem findJob_cons (jid : String) (c : String × JobRecord) (db : Store) :
    findJob jid (c :: db) = if c.1 = jid then some c.2 else findJob jid db := by
  simp only [findJob, List.find?]
  by_cases h : c.1 = jid
  · simp [h]
  · simp [h, (by simpa using h : (c.1 == jid) = false)]

theorem findJob_updJob_self (jid : String) (f : JobRecord → JobRecord) (db : Store) :
    findJob jid (updJob jid f db) = (findJob jid db).map f := by
  induction db with
  | nil => rfl
  | cons c db ih =>
      by_cases h : c.1 = jid
      · simp [updJob, findJob_cons, h]
      · simp only [updJob, List.map_cons, if_neg h]
        rw [findJob_cons, findJob_cons, if_neg h, if_neg h]
        exact ih

theorem findJob_updJob_other {jid jid' : String} (hne : jid' ≠ jid)
    (f : JobRecord → JobRecord) (db : Store) :
    findJob jid' (updJob jid f db) = findJob jid' db := by
  induction db with
  | nil => rfl
  | cons c db ih =>
      by_cases h : c.1 = jid
      · rw [updJob, List.map_cons, if_pos h, findJob_cons, findJob_cons]
        simp only [h]
        rw [if_neg (fun hc => hne hc.symm), if_neg (fun hc => hne hc.symm)]
        exact ih
      · rw [updJob, List.map_cons, if_neg h, findJob_cons, findJob_cons]
        by_cases h' : c.1 = jid'
        · simp [h']
        · rw [if_neg h', if_neg h']
          exact ih

theorem findJob_isSome_of_mem_keys {jid : String} {db : Store}
    (h : jid ∈ storeKeys db) : (findJob jid db).isSome := by
  induction db with
  | nil => simp [storeKeys] at h
  | cons c db ih =>
      rw [findJob_cons]
      by_cases hc : c.1 = jid
      · simp [hc]
      · rw [if_neg hc]
        apply ih
        rw [storeKeys_cons, List.mem_cons] at h
        rcases h with h | h
        · exact absurd h.symm hc
        · exact h

theorem findJob_eq_of_mem {db : Store} {c : String × JobRecord}
    (hnd : (storeKeys db).Nodup) (hmem : c ∈ db) : findJob c.1 db = some c.2 := by
  induction db with
  | nil => simp at hmem
  | cons d db ih =>
      rw [findJob_cons]
      rcases List.mem_cons.mp hmem with h | h
      · simp [h]
      · have hd : d.1 ≠ c.1 := by
          intro he
          have hm : c.1 ∈ storeKeys db := List.mem_map_of_mem (·.1) h
          rw [storeKeys_cons, List.nodup_cons] at hnd
          exact hnd.1 (he ▸ hm)
        rw [if_neg hd]
        refine ih ?_ h
        rw [storeKeys_cons, List.nodup_cons] at hnd
        exact hnd.2

theorem mem_of_findJob_eq {db : Store} {jid : String} {j : JobRecord}
    (h : findJob jid db = some j) : (jid, j) ∈ db := by
  induction db with
  | nil => simp [findJob] at h
  | cons c db ih =>
      rw [findJob_cons] at h
      by_cases hc : c.1 = jid
      · rw [if_pos hc] at h
        have hc2 : c.2 = j := Option.some.inj h
        have : (jid, j) = c := by
          rw [← hc, ← hc2]
        rw [this]
        exact List.mem_cons_self _ _
      · rw [if_neg hc] at h
        exact List.mem_cons_of_mem _ (ih h)

/-! ## Leasing protocol (database.py, lease_worker_jobs) -/

/-- The field updates a granted lease applies to a job record: status becomes
leased, the worker id and lease expiry are set and attempts is incremented
(both backends, database.py lines 641-660 and 1452-1459). -/
def claimUpd (wid : String) (lexp now : Nat) (j : JobRecord) : JobRecord :=
  { j with
    status := WorkerJobStatus.leased
    worker_id := some wid
    lease_expires_at := some lexp
    attempts := j.attempts + 1
    updated_at := now }

/-- FirestoreDatabase.lease_worker_jobs._claim (database.py lines 634-656): a
single transactional conditional update on one document.  It re-reads the
document inside the transaction, checks status == queued (a missing document
reads as an empty dict whose status is not queued, hence the skip), and only
then writes the lease; on a failed precondition it skips without retrying. -/
def claimStep (wid : String) (lexp now : Nat) (jid : String) (db : Store) :
    Store × Option JobRecord :=
  match findJob jid db with
  | some j =>
      if j.status = WorkerJobStatus.queued then
        (updJob jid (claimUpd wid lexp now) db, some (claimUpd wid lexp now j))
      else (db, none)
  | none => (db, none)

/-- Candidate ordering used by both backends: ascending created_at. -/
def byCreated (a b : String × JobRecord) : Prop :=
  a.2.created_at ≤ b.2.created_at

instance : DecidableRel byCreated := fun a b => Nat.decLe a.2.created_at b.2.created_at

instance : IsTotal (String × JobRecord) byCreated :=
  ⟨fun a b => Nat.le_total a.2.created_at b.2.created_at⟩

instance : IsTrans (String × JobRecord) byCreated :=
  ⟨fun _ _ _ hab hbc => Nat.le_trans hab hbc⟩

/-- The lease query filter of both backends: same job_type and status queued. -/
def isQueuedOfType (jt : String) (c : String × JobRecord) : Bool :=
  c.2.job_type == jt && c.2.status == WorkerJobStatus.queued

/-- The candidate query shared by both backends (database.py lines 623-629 and
1442-1448): jobs of the given type with status queued, ordered by created_at
ascending, limited to the first limit results. -/
def selectQueued (jt : String) (limit : Nat) (db : Store) :
    List (String × JobRecord) :=
  (List.insertionSort byCreated (db.filter (isQueuedOfType jt))).take limit

/-- Store effect of granting leases on each selected job in turn. -/
def leaseStore (wid : String) (lexp now : Nat) (sel : List (String × JobRecord))
    (db : Store) : Store :=
  sel.foldl (fun d c => updJob c.1 (claimUpd wid lexp now) d) db

/-- SQLiteDatabase.lease_worker_jobs (database.py lines 1437-1471): inside one
database transaction, select up to limit queued jobs of the type oldest-first
and write the lease fields on each; SQLite serialises writers, so the whole
call is one atomic step. -/
def sqlite_lease_worker_jobs (jt wid : String) (limit lease_seconds now : Nat)
    (db : Store) : Store × List (String × JobRecord) :=
  let sel := selectQueued jt limit db
  (leaseStore wid (now + lease_seconds) now sel db,
   sel.map (fun c => (c.1, claimUpd wid (now + lease_seconds) now c.2)))

/-- FirestoreDatabase.lease_worker_jobs (database.py lines 618-660): stream the
candidate query, then run the transactional claimStep on each candidate in
turn, collecting the successfully claimed jobs. -/
def firestore_lease_worker_jobs (jt wid : String) (limit lease_seconds now : Nat)
    (db : Store) : Store × List (String × JobRecord) :=
  let sel := selectQueued jt limit db
  sel.foldl
    (fun acc c =>
      match claimStep wid (now + lease_seconds) now c.1 acc.1 with
      | (d, some j) => (d, acc.2 ++ [(c.1, j)])
      | (d, none) => (d, acc.2))
    (db, ([] : List (String × JobRecord)))

theorem claimStep_of_queued {jid : String} {db : Store} {j : JobRecord}
    (hf : findJob jid db = some j) (hq : j.status = WorkerJobStatus.queued)
    (wid : String) (lexp now : Nat) :
    claimStep wid lexp now jid db =
      (updJob jid (claimUpd wid lexp now) db, some (claimUpd wid lexp now j)) := by
  simp [claimStep, hf, hq]

theorem claimStep_skip {jid : String} {db : Store}
    (h : ∀ j, findJob jid db = some j → j.status ≠ WorkerJobStatus.queued)
    (wid : String) (lexp now : Nat) :
    claimStep wid lexp now jid db = (db, none) := by
  unfold claimStep
  cases hf : findJob jid db with
  | none => rfl
  | some j => simp [h j hf]

theorem selectQueued_mem {jt : String} {limit : Nat} {db : Store}
    {c : String × JobRecord} (h : c ∈ selectQueued jt limit db) :
    c ∈ db ∧ c.2.job_type = jt ∧ c.2.status = WorkerJobStatus.queued := by
  have h1 : c ∈ List.insertionSort byCreated (db.filter (isQueuedOfType jt)) :=
    List.mem_of_mem_take h
  have h2 : c ∈ db.filter (isQueuedOfType jt) :=
    (List.perm_insertionSort byCreated _).subset h1
  have h3 := List.mem_filter.mp h2
  refine ⟨h3.1, ?_, ?_⟩
  · have := h3.2
    simp only [isQueuedOfType, Bool.and_eq_true, beq_iff_eq] at this
    exact this.1
  · have := h3.2
    simp only [isQueuedOfType, Bool.and_eq_true, beq_iff_eq] at this
    exact this.2

theorem selectQueued_length_le (jt : String) (limit : Nat) (db : Store) :
    (selectQueued jt limit db).length ≤ limit :=
  List.length_take_le _ _

theorem selectQueued_sorted (jt : String) (limit : Nat) (db : Store) :
    (selectQueued jt limit db).Pairwise byCreated := by
  have hs : (List.insertionSort byCreated (db.filter (isQueuedOfType jt))).Pairwise byCreated :=
    List.sorted_insertionSort byCreated _
  exact hs.sublist (List.take_sublist _ _)

theorem selectQueued_keys_nodup {jt : String} {limit : Nat} {db : Store}
    (hnd : (storeKeys db).Nodup) :
    ((selectQueued jt limit db).map (·.1)).Nodup := by
  have h1 : ((db.filter (isQueuedOfType jt)).map (·.1)).Nodup :=
    hnd.sublist (List.Sublist.map _ (List.filter_sublist db))
  have hperm : List.Perm (List.insertionSort byCreated (db.filter (isQueuedOfType jt)))
      (db.filter (isQueuedOfType jt)) := List.perm_insertionSort byCreated _
  have h2 : ((List.insertionSort byCreated (db.filter (isQueuedOfType jt))).map (·.1)).Nodup :=
    ((hperm.map (·.1)).nodup_iff).mpr h1
  exact h2.sublist (List.Sublist.map _ (List.take_sublist _ _))

theorem leaseStore_cons (wid : String) (lexp now : Nat) (c : String × JobRecord)
    (sel : List (String × JobRecord)) (db : Store) :
    leaseStore wid lexp now (c :: sel) db =
      leaseStore wid lexp now sel (updJob c.1 (claimUpd wid lexp now) db) := rfl

theorem leaseStore_findJob_not_mem {jid : String} {sel : List (String × JobRecord)}
    (h : jid ∉ sel.map (·.1)) (wid : String) (lexp now : Nat) (db : Store) :
    findJob jid (leaseStore wid lexp now sel db) = findJob jid db := by
  induction sel generalizing db with
  | nil => rfl
  | cons c sel ih =>
      rw [leaseStore_cons]
      have hne : jid ≠ c.1 := fun he => h (by simp [he])
      rw [ih (fun hm => h (by simp [hm])), findJob_updJob_other hne]

theorem leaseStore_findJob_mem {jid : String} {sel : List (String × JobRecord)}
    (hnd : (sel.map (·.1)).Nodup) (hmem : jid ∈ sel.map (·.1))
    (wid : String) (lexp now : Nat) (db : Store) :
    findJob jid (leaseStore wid lexp now sel db) =
      (findJob jid db).map (claimUpd wid lexp now) := by
  induction sel generalizing db with
  | nil => simp at hmem
  | cons c sel ih =>
      rw [leaseStore_cons]
      rw [List.map_cons, List.nodup_cons] at hnd
      by_cases hc : c.1 = jid
      · have hnot : jid ∉ sel.map (·.1) := hc ▸ hnd.1
        rw [leaseStore_findJob_not_mem hnot, hc, findJob_updJob_self]
      · have hm : jid ∈ sel.map (·.1) := by
          rcases List.mem_cons.mp hmem with h | h
          · exact absurd h.symm hc
          · exact h
        rw [ih hnd.2 hm, findJob_updJob_other (fun he => hc he.symm)]

theorem leaseStore_notQueued_pres {jid : String} {sel : List (String × JobRecord)}
    {db : Store} (h : ∀ j, findJob jid db = some j → j.status ≠ WorkerJobStatus.queued)
    (wid : String) (lexp now : Nat) :
    ∀ j, findJob jid (leaseStore wid lexp now sel db) = some j →
      j.status ≠ WorkerJobStatus.queued := by
  induction sel generalizing db with
  | nil => exact h
  | cons c sel ih =>
      rw [leaseStore_cons]
      apply ih
      intro j hj
      by_cases hc : c.1 = jid
      · rw [hc, findJob_updJob_self] at hj
        cases hf : findJob jid db with
        | none => rw [hf] at hj; simp at hj
        | some j0 =>
            rw [hf] at hj
            have h2 : claimUpd wid lexp now j0 = j := Option.some.inj (by simpa using hj)
            rw [← h2]
            simp [claimUpd]
      · rw [findJob_updJob_other (fun he => hc he.symm)] at hj
        exact h j hj

/-- The Firestore lease fold equals the batch-transaction form when every
candidate is present, queued, and candidate ids are distinct. -/
theorem foldClaim_eq_leaseStore (wid : String) (lexp now : Nat) :
    ∀ (sel : List (String × JobRecord)) (db : Store) (acc : List (String × JobRecord)),
    (∀ c ∈ sel, findJob c.1 db = some c.2 ∧ c.2.status = WorkerJobStatus.queued) →
    ((sel.map (·.1)).Nodup) →
    sel.foldl
      (fun acc c =>
        match claimStep wid lexp now c.1 acc.1 with
        | (d, some j) => (d, acc.2 ++ [(c.1, j)])
        | (d, none) => (d, acc.2))
      (db, acc) =
    (leaseStore wid lexp now sel db,
     acc ++ sel.map (fun c => (c.1, claimUpd wid lexp now c.2)))
  | [], db, acc, _, _ => by simp [leaseStore]
  | c :: sel, db, acc, hpre, hnd => by
      have hc := hpre c (List.mem_cons_self c sel)
      rw [List.foldl_cons]
      rw [claimStep_of_queued hc.1 hc.2 wid lexp now]
      rw [List.map_cons, List.nodup_cons] at hnd
      have hpre' : ∀ c' ∈ sel, findJob c'.1 (updJob c.1 (claimUpd wid lexp now) db) = some c'.2 ∧
          c'.2.status = WorkerJobStatus.queued := by
        intro c' hm
        have hne : c'.1 ≠ c.1 := by
          intro he
          exact hnd.1 (he ▸ List.mem_map_of_mem (·.1) hm)
        rw [findJob_updJob_other hne]
        exact hpre c' (List.mem_cons_of_mem _ hm)
      rw [foldClaim_eq_leaseStore wid lexp now sel _ _ hpre' hnd.2]
      simp [leaseStore_cons]

/-- Under unique document ids, FirestoreDatabase.lease_worker_jobs and
SQLiteDatabase.lease_worker_jobs have the same result and store effect. -/
theorem firestore_lease_eq_sqlite {db : Store} (hnd : (storeKeys db).Nodup)
    (jt wid : String) (limit lease_seconds now : Nat) :
    firestore_lease_worker_jobs jt wid limit lease_seconds now db =
      sqlite_lease_worker_jobs jt wid limit lease_seconds now db := by
  unfold firestore_lease_worker_jobs sqlite_lease_worker_jobs
  have hpre : ∀ c ∈ selectQueued jt limit db,
      findJob c.1 db = some c.2 ∧ c.2.status = WorkerJobStatus.queued := by
    intro c hm
    have h := selectQueued_mem hm
    exact ⟨findJob_eq_of_mem hnd h.1, h.2.2⟩
  rw [foldClaim_eq_leaseStore _ _ _ _ _ _ hpre (selectQueued_keys_nodup hnd)]
  simp

/-! ## Terminal-state and repair operations (database.py) -/

/-- FirestoreDatabase.complete_worker_job (lines 662-672) and
SQLiteDatabase.complete_worker_job (lines 1473-1483): if the document/row does
not exist return false, otherwise set status completed and bump updated_at. -/
def complete_worker_job (jid : String) (now : Nat) (db : Store) : Store × Bool :=
  match findJob jid db with
  | none => (db, false)
  | some _ =>
      (updJob jid (fun j => { j with status := WorkerJobStatus.completed, updated_at := now }) db,
       true)

/-- FirestoreDatabase.fail_worker_job (lines 673-683) and
SQLiteDatabase.fail_worker_job (lines 1484-1494): if the document/row does not
exist return false, otherwise set status failed, record the error and bump
updated_at. -/
def fail_worker_job (jid : String) (error : String) (now : Nat) (db : Store) : Store × Bool :=
  match findJob jid db with
  | none => (db, false)
  | some _ =>
      (updJob jid
        (fun j => { j with status := WorkerJobStatus.failed, error := some error,
                           updated_at := now }) db,
       true)

/-- The field updates of reset_worker_job: status queued, error, worker_id and
lease_expires_at cleared.  Attempts is not among the updated fields. -/
def resetLeaseUpd (j : JobRecord) : JobRecord :=
  { j with status := WorkerJobStatus.queued, error := none,
           worker_id := none, lease_expires_at := none }

/-- FirestoreDatabase.reset_worker_job (lines 738-749): if the document does
not exist return false, otherwise set status queued and delete the error,
worker_id and lease_expires_at fields.  Attempts and updated_at are not
touched. -/
def firestore_reset_worker_job (jid : String) (db : Store) : Store × Bool :=
  match findJob jid db with
  | none => (db, false)
  | some _ => (updJob jid resetLeaseUpd db, true)

/-- SQLiteDatabase.reset_worker_job (lines 1242-1254): same as the Firestore
variant, and additionally bumps updated_at.  Attempts is not touched. -/
def sqlite_reset_worker_job (jid : String) (now : Nat) (db : Store) : Store × Bool :=
  match findJob jid db with
  | none => (db, false)
  | some _ => (updJob jid (fun j => { resetLeaseUpd j with updated_at := now }) db, true)

/-- The filter of reset_failed_jobs in both backends: same job_type, status
failed, and error exactly equal to the given string. -/
def matchesFailedError (jt err : String) (j : JobRecord) : Bool :=
  j.job_type == jt && j.status == WorkerJobStatus.failed && j.error == some err

/-- The bulk-reset update of reset_failed_jobs in both backends: status queued,
error cleared, attempts set to 0, updated_at bumped. -/
def resetZeroUpd (now : Nat) (j : JobRecord) : JobRecord :=
  { j with status := WorkerJobStatus.queued, error := none, attempts := 0, updated_at := now }

/-- FirestoreDatabase.reset_failed_jobs (lines 685-714) and
SQLiteDatabase.reset_failed_jobs (lines 1199-1215): every job of the given
type with status failed whose error exactly equals the given string is set
back to queued with error cleared and attempts zeroed; the count of such jobs
is returned.  (The Firestore 400-document batching only affects commit
granularity, not the final state.) -/
def reset_failed_jobs (jt err : String) (now : Nat) (db : Store) : Store × Nat :=
  (db.map (fun c => if matchesFailedError jt err c.2 then (c.1, resetZeroUpd now c.2) else c),
   db.countP (fun c => matchesFailedError jt err c.2))

/-- FirestoreDatabase.get_failed_worker_jobs (lines 716-736) and
SQLiteDatabase.get_failed_worker_jobs (lines 1216-1241): list jobs with status
failed, optionally filtered by job_type and by attempts ≤ max_attempts. -/
def get_failed_worker_jobs (jobType : Option String) (maxAttempts : Option Nat)
    (db : Store) : List (String × JobRecord) :=
  db.filter (fun c =>
    c.2.status == WorkerJobStatus.failed
    && (match jobType with | some t => c.2.job_type == t | none => true)
    && (match maxAttempts with | some m => decide (c.2.attempts ≤ m) | none => true))

/-! ## Worker loop (worker_queue.py, process_queue_jobs) -/

/-- Python truthiness for strings that may be absent: an absent or empty
string is falsy. -/
def strOpt : Option String → Option String
  | some s => if s = "" then none else some s
  | none => none

/-- A job dict as returned by lease_worker_jobs and consumed by the worker
loop.  The loop reads the keys firestore_id, id and item_id defensively
(worker_queue.py lines 75-77). -/
structure LeasedJob where
  firestore_id : Option String := none
  id : Option String := none
  item_id : Option String := none
deriving DecidableEq

/-- worker_queue.py line 75: job_id = job.get('firestore_id') or job.get('id'),
with Python falsiness on both. -/
def jobIdOf (j : LeasedJob) : Option String :=
  match strOpt j.firestore_id with
  | some s => some s
  | none => strOpt j.id

/-- The outcome of running the supplied processing function on one job: it
returns (success, error) or raises an exception with a message. -/
inductive ProcOutcome where
  | success
  | failure (error : Option String)
  | exn (msg : String)
deriving DecidableEq

/-- Python's x or default for an optional string (None and the empty string
fall back to the default). -/
def pyOr (e : Option String) (d : String) : String :=
  match e with
  | some s => if s = "" then d else s
  | none => d

/-- worker_queue.py guards every complete/fail call with if job_id. -/
def failIfId (jid : Option String) (e : String) (now : Nat) (db : Store) : Store :=
  match jid with
  | some j => (fail_worker_job j e now db).1
  | none => db

/-- worker_queue.py guards every complete/fail call with if job_id. -/
def completeIfId (jid : Option String) (now : Nat) (db : Store) : Store :=
  match jid with
  | some j => (complete_worker_job j now db).1
  | none => db

/-- The body of the per-job loop of process_queue_jobs (worker_queue.py lines
74-145), acting on the job store.  items is the set of item ids the store can
fetch (db.get_shared_item returns a truthy dict exactly for those).  pf is the
behaviour of process_item_fn on this job.  The result pairs the updated store
with the exception escaping the loop iteration, if any:
* a missing or empty item_id fails the job with missing_item_id and continues;
* an unfetchable item fails the job with item_not_found and continues;
* success completes the job;
* (False, error) fails the job with the error (or job_failed when falsy); when
  halt_on_error is set the raised RuntimeError is caught by the same except
  block, which records the failure again and re-raises;
* an exception from the processing function fails the job with its message and
  re-raises exactly when halt_on_error is set. -/
def process_one (items : List String) (pf : LeasedJob → ProcOutcome) (halt : Bool)
    (now : Nat) (j : LeasedJob) (db : Store) : Store × Option String :=
  match strOpt j.item_id with
  | none => (failIfId (jobIdOf j) "missing_item_id" now db, none)
  | some iid =>
      if items.contains iid then
        match pf j with
        | ProcOutcome.success => (completeIfId (jobIdOf j) now db, none)
        | ProcOutcome.failure e =>
            let msg := pyOr e "job_failed"
            let db1 := failIfId (jobIdOf j) msg now db
            if halt then (failIfId (jobIdOf j) msg now db1, some msg)
            else (db1, none)
        | ProcOutcome.exn m =>
            let db1 := failIfId (jobIdOf j) m now db
            if halt then (db1, some m) else (db1, none)
      else (failIfId (jobIdOf j) "item_not_found" now db, none)

/-- The batch loop of process_queue_jobs over one leased batch: jobs are
processed in sequence; an exception escaping one iteration aborts the rest of
the batch (worker_queue.py lines 74-145). -/
def process_batch (items : List String) (pf : LeasedJob → ProcOutcome) (halt : Bool)
    (now : Nat) : List LeasedJob → Store → Store × Option String
  | [], db => (db, none)
  | j :: rest, db =>
      match process_one items pf halt now j db with
      | (db1, some e) => (db1, some e)
      | (db1, none) => process_batch items pf halt now rest db1

/-! ## Supervision manager (worker_manager.py) -/

/-- A manager rule as run by run_manager_cycle: it may mutate the job store
and either returns a count or raises an error message.  (Rules also touch
domain items and external services; only the job-store effect matters to the
claims below.) -/
def ManagerRule := Store → Store × Except String Nat

/-- worker_manager.py rule_retry_single_attempt_failures (lines 55-81): list
failed jobs with attempts ≤ 1 (db.get_failed_worker_jobs(max_attempts=1)) and
reset each with db.reset_worker_job, counting the successful resets. -/
def rule_retry_single_attempt_failures (db : Store) : Store × Nat :=
  (get_failed_worker_jobs none (some 1) db).foldl
    (fun acc c =>
      match firestore_reset_worker_job c.1 acc.1 with
      | (d, true) => (d, acc.2 + 1)
      | (d, false) => (d, acc.2))
    (db, 0)

/-- worker_manager.py rule_reset_missing_analysis_failures (lines 84-87):
db.reset_failed_jobs('normalize', 'missing_analysis'). -/
def rule_reset_missing_analysis_failures (now : Nat) (db : Store) : Store × Nat :=
  reset_failed_jobs "normalize" "missing_analysis" now db

/-- worker_manager.py MANAGER_RULES (lines 230-235), projected onto the job
store.  rule_create_timeline_follow_ups (lines 90-156) reads and updates
domain items only, and rule_launch_worker_jobs (lines 159-196) only queries
queued-job counts and launches Cloud Run executions; neither writes any job
record, so both are the identity on the job store. -/
def MANAGER_RULES (now : Nat) : List (String × ManagerRule) :=
  [("retry_single_attempt_failures", fun db =>
      ((rule_retry_single_attempt_failures db).1,
       Except.ok (rule_retry_single_attempt_failures db).2)),
   ("reset_missing_analysis_failures", fun db =>
      ((rule_reset_missing_analysis_failures now db).1,
       Except.ok (rule_reset_missing_analysis_failures now db).2)),
   ("create_timeline_follow_ups", fun db => (db, Except.ok 0)),
   ("launch_worker_jobs", fun db => (db, Except.ok 0))]

/-- worker_manager.py run_manager_cycle (lines 238-252): execute every rule in
registry order inside a try/except that logs a rule's exception and moves on
to the next rule.  Returns the final store and the list of rules executed. -/
def run_manager_cycle : List (String × ManagerRule) → Store → Store × List String
  | [], db => (db, [])
  | (n, r) :: rest, db =>
      let res := r db
      let z := run_manager_cycle rest res.1
      (z.1, n :: z.2)

/-- One full manager cycle over the registered rules. -/
def managerCycle (now : Nat) (db : Store) : Store :=
  (run_manager_cycle (MANAGER_RULES now) db).1

/-! ## Race schedules -/

/-- A schedule of racing Firestore claim transactions on one job: each entry
is one worker's _claim attempt (worker id, lease expiry, write time).  The
Firestore transaction makes each attempt a single atomic step, so any
interleaving of racing lease calls is some sequential order of these steps. -/
def runClaims (jid : String) : List (String × Nat × Nat) → Store → Store × List Bool
  | [], db => (db, [])
  | (wid, lexp, now) :: rest, db =>
      let res := claimStep wid lexp now jid db
      let z := runClaims jid rest res.1
      (z.1, res.2.isSome :: z.2)

/-- Parameters of one SQLite lease call. -/
structure LeaseCall where
  job_type : String
  worker_id : String
  limit : Nat
  lease_seconds : Nat
  now : Nat

/-- A schedule of SQLite lease calls: SQLite serialises writing transactions,
so racing calls execute in some sequential order.  Returns the final store
and each call's returned batch. -/
def runLeases : List LeaseCall → Store → Store × List (List (String × JobRecord))
  | [], db => (db, [])
  | call :: rest, db =>
      let res := sqlite_lease_worker_jobs call.job_type call.worker_id call.limit
        call.lease_seconds call.now db
      let z := runLeases rest res.1
      (z.1, res.2 :: z.2)

/-- Whether a returned batch contains the job with the given id. -/
def observes (jid : String) (batch : List (String × JobRecord)) : Bool :=
  batch.any (fun c => c.1 == jid)

/-! ## Helper lemmas for the terminal-state operations -/

theorem updJob_idem {f : JobRecord → JobRecord} (hf : ∀ j, f (f j) = f j)
    (jid : String) (db : Store) :
    updJob jid f (updJob jid f db) = updJob jid f db := by
  induction db with
  | nil => rfl
  | cons c db ih =>
      simp only [updJob, List.map_cons] at ih ⊢
      by_cases h : c.1 = jid <;> simp [h, hf, ih]

theorem findJob_mapIf (p : JobRecord → Bool) (g : JobRecord → JobRecord)
    (jid : String) (db : Store) :
    findJob jid (db.map (fun c => if p c.2 then (c.1, g c.2) else c)) =
      (findJob jid db).map (fun x => if p x then g x else x) := by
  induction db with
  | nil => rfl
  | cons c db ih =>
      rw [List.map_cons]
      by_cases hp : p c.2
      · rw [if_pos hp, findJob_cons, findJob_cons]
        by_cases hc : c.1 = jid
        · simp [hc, hp]
        · simp only [hc, if_false, ite_false]
          exact ih
      · rw [if_neg hp, findJob_cons, findJob_cons]
        by_cases hc : c.1 = jid
        · simp [hc, hp]
        · simp only [hc, if_false, ite_false]
          exact ih

/-! ## Claim theorems -/

/-- C6 — Idempotent completion: complete_worker_job and fail_worker_job return
false exactly when the job record does not exist, and calling either a second
time on the same job is a no-op: the second call returns the same flag and
leaves the store exactly as the first call left it. -/
theorem C6_idempotent_completion (db : Store) (jid : String) (e : String) (now : Nat) :
    ((complete_worker_job jid now db).2 = false ↔ findJob jid db = none)
    ∧ ((fail_worker_job jid e now db).2 = false ↔ findJob jid db = none)
    ∧ (complete_worker_job jid now (complete_worker_job jid now db).1 =
        complete_worker_job jid now db)
    ∧ (fail_worker_job jid e now (fail_worker_job jid e now db).1 =
        fail_worker_job jid e now db) := by
  refine ⟨?_, ?_, ?_, ?_⟩
  · cases hf : findJob jid db <;> simp [complete_worker_job, hf]
  · cases hf : findJob jid db <;> simp [fail_worker_job, hf]
  · cases hf : findJob jid db with
    | none => simp [complete_worker_job, hf]
    | some j =>
        have hid : updJob jid
            (fun j => { j with status := WorkerJobStatus.completed, updated_at := now })
            (updJob jid
              (fun j => { j with status := WorkerJobStatus.completed, updated_at := now }) db) =
            updJob jid
              (fun j => { j with status := WorkerJobStatus.completed, updated_at := now }) db :=
          @updJob_idem
            (fun j => { j with status := WorkerJobStatus.completed, updated_at := now })
            (fun _ => rfl) jid db
        simp only [complete_worker_job, hf, findJob_updJob_self]
        simp [hid]
  · cases hf : findJob jid db with
    | none => simp [fail_worker_job, hf]
    | some j =>
        have hid : updJob jid
            (fun j => { j with status := WorkerJobStatus.failed, error := some e,
                               updated_at := now })
            (updJob jid
              (fun j => { j with status := WorkerJobStatus.failed, error := some e,
                                 updated_at := now }) db) =
            updJob jid
              (fun j => { j with status := WorkerJobStatus.failed, error := some e,
                                 updated_at := now }) db :=
          @updJob_idem
            (fun j => { j with status := WorkerJobStatus.failed, error := some e,
                               updated_at := now })
            (fun _ => rfl) jid db
        simp only [fail_worker_job, hf, findJob_updJob_self]
        simp [hid]

/-- C10 — Unguarded status transitions: complete, fail and both resets check
only that the job record exists, never its current status.  For any existing
job, whatever its status: fail sets status failed (so fail after complete
moves a completed job to failed), complete sets status completed (even on a
job that was never leased), and reset returns even a currently leased job to
queued. -/
theorem C10_unguarded_status_transitions (db : Store) (jid : String) (j : JobRecord)
    (e : String) (now : Nat) (hf : findJob jid db = some j) :
    ((fail_worker_job jid e now db).2 = true
      ∧ findJob jid (fail_worker_job jid e now db).1 =
          some { j with status := WorkerJobStatus.failed, error := some e, updated_at := now })
    ∧ ((complete_worker_job jid now db).2 = true
      ∧ findJob jid (complete_worker_job jid now db).1 =
          some { j with status := WorkerJobStatus.completed, updated_at := now })
    ∧ ((firestore_reset_worker_job jid db).2 = true
      ∧ findJob jid (firestore_reset_worker_job jid db).1 = some (resetLeaseUpd j))
    ∧ ((sqlite_reset_worker_job jid now db).2 = true
      ∧ findJob jid (sqlite_reset_worker_job jid now db).1 =
          some { resetLeaseUpd j with updated_at := now })
    ∧ findJob jid
        ((fail_worker_job jid e now (complete_worker_job jid now db).1).1) =
          some { j with status := WorkerJobStatus.failed, error := some e, updated_at := now } := by
  have hfail : findJob jid (fail_worker_job jid e now db).1 =
      some { j with status := WorkerJobStatus.failed, error := some e, updated_at := now } := by
    simp [fail_worker_job, hf, findJob_updJob_self]
  refine ⟨⟨by simp [fail_worker_job, hf], hfail⟩, ⟨?_, ?_⟩, ⟨?_, ?_⟩, ⟨?_, ?_⟩, ?_⟩
  · simp [complete_worker_job, hf]
  · simp [complete_worker_job, hf, findJob_updJob_self]
  · simp [firestore_reset_worker_job, hf]
  · simp [firestore_reset_worker_job, hf, findJob_updJob_self]
  · simp [sqlite_reset_worker_job, hf]
  · simp [sqlite_reset_worker_job, hf, findJob_updJob_self]
  · have hc : findJob jid (complete_worker_job jid now db).1 =
        some { j with status := WorkerJobStatus.completed, updated_at := now } := by
      simp [complete_worker_job, hf, findJob_updJob_self]
    simp [fail_worker_job, hc, findJob_updJob_self]

/-- C10 witness: a completed job ("done") and a leased job ("busy"); fail
flips the completed job to failed, and reset returns the leased job to
queued mid-lease. -/
theorem C10_unguarded_status_transitions_witness :
    findJob "done"
        ((fail_worker_job "done" "late_error" 9
          [("done", { job_type := "analysis", status := WorkerJobStatus.completed,
                      attempts := 2 })]).1) =
      some { job_type := "analysis", status := WorkerJobStatus.failed,
             attempts := 2, error := some "late_error", updated_at := 9 }
    ∧ findJob "busy"
        ((firestore_reset_worker_job "busy"
          [("busy", { job_type := "analysis", status := WorkerJobStatus.leased,
                      attempts := 1, worker_id := some "w1",
                      lease_expires_at := some 600 })]).1) =
      some { job_type := "analysis", status := WorkerJobStatus.queued, attempts := 1 } := by
  constructor
  · exact (C10_unguarded_status_transitions
      [("done", { job_type := "analysis", status := WorkerJobStatus.completed, attempts := 2 })]
      "done" { job_type := "analysis", status := WorkerJobStatus.completed, attempts := 2 }
      "late_error" 9 (by decide)).1.2
  · exact (C10_unguarded_status_transitions
      [("busy", { job_type := "analysis", status := WorkerJobStatus.leased, attempts := 1,
                  worker_id := some "w1", lease_expires_at := some 600 })]
      "busy" { job_type := "analysis", status := WorkerJobStatus.leased, attempts := 1,
               worker_id := some "w1", lease_expires_at := some 600 }
      "unused" 0 (by decide)).2.2.1.2

/-- C8 — Bulk known-error reset: reset_failed_jobs sets every job of the given
type with status failed and error exactly equal to the given string to queued
with error cleared and attempts zeroed, returns the count of jobs so reset,
and leaves every job whose error or job type differs unchanged. -/
theorem C8_reset_matching (db : Store) (jt err : String) (now : Nat) :
    ((reset_failed_jobs jt err now db).2 =
        (db.filter (fun c => matchesFailedError jt err c.2)).length)
    ∧ (∀ (jid : String) (j : JobRecord), findJob jid db = some j →
        j.job_type = jt → j.status = WorkerJobStatus.failed → j.error = some err →
        findJob jid (reset_failed_jobs jt err now db).1 = some (resetZeroUpd now j))
    ∧ (∀ (jid : String) (j : JobRecord), findJob jid db = some j →
        j.job_type ≠ jt ∨ j.error ≠ some err →
        findJob jid (reset_failed_jobs jt err now db).1 = some j) := by
  refine ⟨?_, ?_, ?_⟩
  · simp [reset_failed_jobs, List.countP_eq_length_filter]
  · intro jid j hf ht hs he
    have hm : matchesFailedError jt err j = true := by
      simp [matchesFailedError, ht, hs, he]
    simp only [reset_failed_jobs]
    rw [findJob_mapIf, hf]
    simp [hm]
  · intro jid j hf hne
    have hm : matchesFailedError jt err j = false := by
      rcases hne with hne | hne <;>
        simp [matchesFailedError, Bool.and_eq_true, beq_iff_eq, hne]
    simp only [reset_failed_jobs]
    rw [findJob_mapIf, hf]
    simp [hm]

/-- Example store for the C8 witness. -/
def C8exampleDb : Store :=
  [("a", { job_type := "normalize", status := WorkerJobStatus.failed,
           attempts := 3, error := some "missing_analysis" }),
   ("b", { job_type := "normalize", status := WorkerJobStatus.failed,
           attempts := 1, error := some "missing_analysis" }),
   ("c", { job_type := "normalize", status := WorkerJobStatus.failed,
           attempts := 1, error := some "other_error" })]

/-- C8 witness: three failed normalize jobs, two with the matching error and
one with a different error; the matching two are reset with attempts zeroed,
the third is untouched, and the count is 2. -/
theorem C8_reset_matching_witness :
    findJob "a"
        ((reset_failed_jobs "normalize" "missing_analysis" 50 C8exampleDb).1) =
      some (resetZeroUpd 50
        { job_type := "normalize", status := WorkerJobStatus.failed,
          attempts := 3, error := some "missing_analysis" })
    ∧ findJob "c"
        ((reset_failed_jobs "normalize" "missing_analysis" 50 C8exampleDb).1) =
      some { job_type := "normalize", status := WorkerJobStatus.failed,
             attempts := 1, error := some "other_error" }
    ∧ (reset_failed_jobs "normalize" "missing_analysis" 50 C8exampleDb).2 = 2 := by
  refine ⟨?_, ?_, ?_⟩
  · exact (C8_reset_matching C8exampleDb "normalize" "missing_analysis" 50).2.1 "a"
      { job_type := "normalize", status := WorkerJobStatus.failed,
        attempts := 3, error := some "missing_analysis" }
      (by decide) rfl rfl rfl
  · exact (C8_reset_matching C8exampleDb "normalize" "missing_analysis" 50).2.2 "c"
      { job_type := "normalize", status := WorkerJobStatus.failed,
        attempts := 1, error := some "other_error" }
      (by decide) (Or.inr (by decide))
  · have h := (C8_reset_matching C8exampleDb "normalize" "missing_analysis" 50).1
    rw [h]
    decide

/-- C9 — Manager rule isolation: run_manager_cycle executes every registered
rule in registry order (the execution log lists exactly the registered rule
names, in order), a rule that raises does not prevent the remaining rules
from running, and the concrete MANAGER_RULES registry runs its four rules in
declaration order. -/
theorem C9_manager_rule_isolation :
    (∀ (rules : List (String × ManagerRule)) (db : Store),
        (run_manager_cycle rules db).2 = rules.map (·.1))
    ∧ (∀ (n : String) (r : ManagerRule) (rest : List (String × ManagerRule))
        (db db' : Store) (e : String), r db = (db', Except.error e) →
        run_manager_cycle ((n, r) :: rest) db =
          ((run_manager_cycle rest db').1, n :: (run_manager_cycle rest db').2))
    ∧ (∀ (now : Nat) (db : Store),
        (run_manager_cycle (MANAGER_RULES now) db).2 =
          ["retry_single_attempt_failures", "reset_missing_analysis_failures",
           "create_timeline_follow_ups", "launch_worker_jobs"]) := by
  have hlog : ∀ (rules : List (String × ManagerRule)) (db : Store),
      (run_manager_cycle rules db).2 = rules.map (·.1) := by
    intro rules
    induction rules with
    | nil => intro db; rfl
    | cons r rest ih =>
        intro db
        simp [run_manager_cycle, ih]
  refine ⟨hlog, ?_, ?_⟩
  · intro n r rest db db' e hr
    simp [run_manager_cycle, hr]
  · intro now db
    rw [hlog]
    rfl

/-- C9 witness: the MANAGER_RULES log at a concrete store, and a registry
whose first rule raises: the second rule still runs and the log holds both
names in order. -/
theorem C9_manager_rule_isolation_witness :
    (run_manager_cycle (MANAGER_RULES 0) []).2 =
      ["retry_single_attempt_failures", "reset_missing_analysis_failures",
       "create_timeline_follow_ups", "launch_worker_jobs"]
    ∧ run_manager_cycle
        [("boom", fun db => (db, Except.error "rule failed")),
         ("after", fun db => (db, Except.ok 0))] [] =
      (([] : Store), ["boom", "after"]) := by
  constructor
  · exact (C9_manager_rule_isolation).2.2 0 []
  · have h := (C9_manager_rule_isolation).2.1 "boom"
      (fun db => (db, Except.error "rule failed"))
      [("after", fun db => (db, Except.ok 0))] [] [] "rule failed" rfl
    rw [h]
    rfl

/-- C4 — Worker per-job resolution (process_queue_jobs, worker_queue.py lines
119-145): with the item present, a processing function returning success
completes the job; returning (False, error) fails the job with that error
string; an uncaught exception is handled identically with the exception
message as the error string.  In both failure cases, with halt_on_error the
worker re-raises after recording the failure (on the (False, error) path the
raised RuntimeError is caught by the same except block, which records the
failure a second time before re-raising); without halt_on_error the batch
loop continues with the next job. -/
theorem C4_worker_per_job_resolution (items : List String)
    (pf : LeasedJob → ProcOutcome) (now : Nat) (j : LeasedJob) (db : Store)
    (jid iid : String)
    (hjid : jobIdOf j = some jid) (hitem : strOpt j.item_id = some iid)
    (hhave : items.contains iid = true) :
    (pf j = ProcOutcome.success → ∀ halt,
        process_one items pf halt now j db = ((complete_worker_job jid now db).1, none))
    ∧ (∀ e, pf j = ProcOutcome.failure (some e) → e ≠ "" →
        process_one items pf false now j db = ((fail_worker_job jid e now db).1, none)
        ∧ process_one items pf true now j db =
            ((fail_worker_job jid e now (fail_worker_job jid e now db).1).1, some e))
    ∧ (∀ m, pf j = ProcOutcome.exn m →
        process_one items pf false now j db = ((fail_worker_job jid m now db).1, none)
        ∧ process_one items pf true now j db = ((fail_worker_job jid m now db).1, some m))
    ∧ (∀ halt (rest : List LeasedJob),
        (process_one items pf halt now j db).2 = none →
        process_batch items pf halt now (j :: rest) db =
          process_batch items pf halt now rest (process_one items pf halt now j db).1) := by
  have hm : iid ∈ items := by simpa using hhave
  refine ⟨?_, ?_, ?_, ?_⟩
  · intro hpf halt
    simp [process_one, hitem, hm, hpf, completeIfId, hjid]
  · intro e hpf hne
    constructor <;>
      simp [process_one, hitem, hm, hpf, failIfId, hjid, pyOr, hne]
  · intro m hpf
    constructor <;>
      simp [process_one, hitem, hm, hpf, failIfId, hjid]
  · intro halt rest hnone
    rcases hpo : process_one items pf halt now j db with ⟨db1, r⟩
    rw [hpo] at hnone
    simp only at hnone
    subst hnone
    simp [process_batch, hpo]

/-- Example leased job and store for the C4 witness. -/
def C4job : LeasedJob := { firestore_id := some "job1", item_id := some "item1" }

/-- Example job store for the C4 witness. -/
def C4db : Store := [("job1", { job_type := "analysis", status := WorkerJobStatus.leased,
                                attempts := 1, worker_id := some "w1" })]

/-- C4 witness: on a concrete store, a success outcome completes the job, a
failure outcome without halt fails it and continues, and with halt the error
escapes the loop. -/
theorem C4_worker_per_job_resolution_witness :
    process_one ["item1"] (fun _ => ProcOutcome.success) false 5 C4job C4db =
      ((complete_worker_job "job1" 5 C4db).1, none)
    ∧ process_one ["item1"] (fun _ => ProcOutcome.failure (some "bad")) false 5 C4job C4db =
      ((fail_worker_job "job1" "bad" 5 C4db).1, none)
    ∧ process_one ["item1"] (fun _ => ProcOutcome.failure (some "bad")) true 5 C4job C4db =
      ((fail_worker_job "job1" "bad" 5 (fail_worker_job "job1" "bad" 5 C4db).1).1, some "bad") := by
  refine ⟨?_, ?_, ?_⟩
  · exact (C4_worker_per_job_resolution ["item1"] (fun _ => ProcOutcome.success) 5 C4job C4db
      "job1" "item1" (by decide) (by decide) (by decide)).1 rfl false
  · exact ((C4_worker_per_job_resolution ["item1"] (fun _ => ProcOutcome.failure (some "bad"))
      5 C4job C4db "job1" "item1" (by decide) (by decide) (by decide)).2.1 "bad" rfl
      (by decide)).1
  · exact ((C4_worker_per_job_resolution ["item1"] (fun _ => ProcOutcome.failure (some "bad"))
      5 C4job C4db "job1" "item1" (by decide) (by decide) (by decide)).2.1 "bad" rfl
      (by decide)).2

/-- C7 — Missing-item handling (process_queue_jobs, worker_queue.py lines
95-113): a job without an item_id is failed with missing_item_id, a job whose
item cannot be fetched is failed with item_not_found; in both cases nothing
is raised (whatever halt_on_error is) and the batch loop continues with the
next job. -/
theorem C7_missing_item_handling (items : List String)
    (pf : LeasedJob → ProcOutcome) (now : Nat) (j : LeasedJob) (db : Store)
    (jid : String) (hjid : jobIdOf j = some jid) :
    (strOpt j.item_id = none → ∀ halt,
        process_one items pf halt now j db =
          ((fail_worker_job jid "missing_item_id" now db).1, none))
    ∧ (∀ iid, strOpt j.item_id = some iid → items.contains iid = false → ∀ halt,
        process_one items pf halt now j db =
          ((fail_worker_job jid "item_not_found" now db).1, none))
    ∧ (strOpt j.item_id = none → ∀ halt (rest : List LeasedJob),
        process_batch items pf halt now (j :: rest) db =
          process_batch items pf halt now rest (fail_worker_job jid "missing_item_id" now db).1)
    ∧ (∀ iid, strOpt j.item_id = some iid → items.contains iid = false →
        ∀ halt (rest : List LeasedJob),
        process_batch items pf halt now (j :: rest) db =
          process_batch items pf halt now rest (fail_worker_job jid "item_not_found" now db).1) := by
  have hmiss : strOpt j.item_id = none → ∀ halt,
      process_one items pf halt now j db =
        ((fail_worker_job jid "missing_item_id" now db).1, none) := by
    intro hitem halt
    simp [process_one, hitem, failIfId, hjid]
  have hnf : ∀ iid, strOpt j.item_id = some iid → items.contains iid = false → ∀ halt,
      process_one items pf halt now j db =
        ((fail_worker_job jid "item_not_found" now db).1, none) := by
    intro iid hitem hmem halt
    have hm : iid ∉ items := by simpa using hmem
    simp [process_one, hitem, hm, failIfId, hjid]
  refine ⟨hmiss, hnf, ?_, ?_⟩
  · intro hitem halt rest
    simp [process_batch, hmiss hitem halt]
  · intro iid hitem hmem halt rest
    simp [process_batch, hnf iid hitem hmem halt]

/-- C7 witness: a job with no item_id is failed with missing_item_id and the
loop does not raise even with halt_on_error; a job whose item is not in the
store is failed with item_not_found. -/
theorem C7_missing_item_handling_witness :
    process_one ["item1"] (fun _ => ProcOutcome.success) true 5
        { firestore_id := some "job2" } C4db =
      ((fail_worker_job "job2" "missing_item_id" 5 C4db).1, none)
    ∧ process_one ["item1"] (fun _ => ProcOutcome.success) true 5
        { firestore_id := some "job3", item_id := some "gone" } C4db =
      ((fail_worker_job "job3" "item_not_found" 5 C4db).1, none) := by
  constructor
  · exact (C7_missing_item_handling ["item1"] (fun _ => ProcOutcome.success) 5
      { firestore_id := some "job2" } C4db "job2" (by decide)).1 (by decide) true
  · exact (C7_missing_item_handling ["item1"] (fun _ => ProcOutcome.success) 5
      { firestore_id := some "job3", item_id := some "gone" } C4db "job3" (by decide)).2.1
      "gone" (by decide) (by decide) true

/-! ## Helper lemmas for the manager retry rule -/

/-- The store effect of rule_retry_single_attempt_failures: reset each listed
job id in turn. -/
def retryStoreFold (L : List (String × JobRecord)) (db : Store) : Store :=
  L.foldl (fun d c => (firestore_reset_worker_job c.1 d).1) db

theorem rule_retry_store_eq (db : Store) :
    (rule_retry_single_attempt_failures db).1 =
      retryStoreFold (get_failed_worker_jobs none (some 1) db) db := by
  unfold rule_retry_single_attempt_failures retryStoreFold
  generalize get_failed_worker_jobs none (some 1) db = L
  suffices h : ∀ (L : List (String × JobRecord)) (db0 : Store) (k : Nat),
      (L.foldl (fun acc c =>
        match firestore_reset_worker_job c.1 acc.1 with
        | (d, true) => (d, acc.2 + 1)
        | (d, false) => (d, acc.2)) (db0, k)).1 =
      L.foldl (fun d c => (firestore_reset_worker_job c.1 d).1) db0 by
    exact h L db 0
  intro L
  induction L with
  | nil => intro db0 k; rfl
  | cons c L ih =>
      intro db0 k
      rcases hr : firestore_reset_worker_job c.1 db0 with ⟨d, b⟩
      cases b <;> simp [hr, ih]

theorem retryStoreFold_not_mem {jid : String} {L : List (String × JobRecord)}
    (h : jid ∉ L.map (·.1)) (db : Store) :
    findJob jid (retryStoreFold L db) = findJob jid db := by
  induction L generalizing db with
  | nil => rfl
  | cons c L ih =>
      have hne : jid ≠ c.1 := fun he => h (by simp [he])
      have hstep : findJob jid (firestore_reset_worker_job c.1 db).1 = findJob jid db := by
        unfold firestore_reset_worker_job
        cases hf : findJob c.1 db with
        | none => rfl
        | some j0 => exact findJob_updJob_other hne _ db
      calc findJob jid (retryStoreFold L (firestore_reset_worker_job c.1 db).1)
          = findJob jid (firestore_reset_worker_job c.1 db).1 :=
            ih (fun hm => h (by simp [hm])) _
        _ = findJob jid db := hstep

theorem retryStoreFold_mem {jid : String} {j : JobRecord} {L : List (String × JobRecord)}
    (hnd : (L.map (·.1)).Nodup) (hmem : jid ∈ L.map (·.1))
    (db : Store) (hf : findJob jid db = some j) :
    findJob jid (retryStoreFold L db) = some (resetLeaseUpd j) := by
  induction L generalizing db j with
  | nil => simp at hmem
  | cons c L ih =>
      rw [List.map_cons, List.nodup_cons] at hnd
      by_cases hc : c.1 = jid
      · have hstep : findJob jid (firestore_reset_worker_job c.1 db).1 =
            some (resetLeaseUpd j) := by
          unfold firestore_reset_worker_job
          rw [hc, hf]
          simp only
          rw [findJob_updJob_self, hf]
          rfl
        have hnot : jid ∉ L.map (·.1) := hc ▸ hnd.1
        show findJob jid (retryStoreFold L (firestore_reset_worker_job c.1 db).1) =
          some (resetLeaseUpd j)
        rw [retryStoreFold_not_mem hnot, hstep]
      · have hm : jid ∈ L.map (·.1) := by
          rcases List.mem_cons.mp hmem with h | h
          · exact absurd h.symm hc
          · exact h
        have hstep : findJob jid (firestore_reset_worker_job c.1 db).1 = some j := by
          unfold firestore_reset_worker_job
          cases hfc : findJob c.1 db with
          | none => exact hf
          | some j0 =>
              simp only
              rw [findJob_updJob_other (fun he => hc he.symm), hf]
        exact ih hnd.2 hm _ hstep

theorem managerCycle_eq (now : Nat) (db : Store) :
    managerCycle now db =
      (reset_failed_jobs "normalize" "missing_analysis" now
        (rule_retry_single_attempt_failures db).1).1 := by
  simp [managerCycle, MANAGER_RULES, run_manager_cycle, rule_reset_missing_analysis_failures]

theorem mem_failed_list {db : Store} {jid : String} {j : JobRecord}
    (hf : findJob jid db = some j) (hst : j.status = WorkerJobStatus.failed)
    (hat : j.attempts ≤ 1) :
    jid ∈ (get_failed_worker_jobs none (some 1) db).map (·.1) := by
  have hm : (jid, j) ∈ get_failed_worker_jobs none (some 1) db := by
    apply List.mem_filter.mpr
    refine ⟨mem_of_findJob_eq hf, ?_⟩
    simp [hst, hat]
  exact List.mem_map_of_mem (·.1) hm

theorem failed_list_keys_nodup {db : Store} (hnd : (storeKeys db).Nodup) :
    ((get_failed_worker_jobs none (some 1) db).map (·.1)).Nodup :=
  hnd.sublist (List.Sublist.map _ (List.filter_sublist db))

theorem not_mem_failed_list {db : Store} {jid : String} {j : JobRecord}
    (hnd : (storeKeys db).Nodup) (hf : findJob jid db = some j)
    (hst : j.status ≠ WorkerJobStatus.failed) :
    jid ∉ (get_failed_worker_jobs none (some 1) db).map (·.1) := by
  intro hmem
  rcases List.mem_map.mp hmem with ⟨c, hc, hceq⟩
  have hcdb := List.mem_filter.mp hc
  have hfc : findJob c.1 db = some c.2 := findJob_eq_of_mem hnd hcdb.1
  rw [hceq, hf] at hfc
  have : c.2 = j := Option.some.inj hfc.symm
  have hb := hcdb.2
  simp only [get_failed_worker_jobs, Bool.and_eq_true, beq_iff_eq] at hb
  exact hst (this ▸ hb.1.1)

/-- Example store for the C3 counterexample: one job that failed on its first
lease (attempts = 1). -/
def C3exampleDb : Store :=
  [("j1", { job_type := "analysis", status := WorkerJobStatus.failed,
            attempts := 1, error := some "boom", worker_id := some "w1",
            lease_expires_at := some 600 })]

/-- C3 counterexample: a job that failed with attempts = 1 is requeued by one
manager cycle, but its attempts counter is still 1, not 0 — reset_worker_job
(database.py lines 738-749 and 1242-1254) never writes the attempts field, so
the claimed attempts-reset does not happen. -/
theorem C3_counterexample :
    (findJob "j1" (managerCycle 7 C3exampleDb)).map (fun j => j.status) =
        some WorkerJobStatus.queued
    ∧ ¬ ((findJob "j1" (managerCycle 7 C3exampleDb)).map (fun j => j.attempts) = some 0)
    ∧ (findJob "j1" (managerCycle 7 C3exampleDb)).map (fun j => j.attempts) = some 1 := by
  refine ⟨?_, ?_, ?_⟩ <;> decide

/-- C3 (amended) — Retry requeue: every failed job with attempts ≤ 1 is,
within one manager cycle, returned to status queued by
rule_retry_single_attempt_failures via reset_worker_job, which clears the
lease fields (worker_id, lease_expires_at) and the error — but leaves the
attempts counter unchanged, so a job that failed with attempts = 1 is
requeued with attempts still 1. -/
theorem C3_retry_requeues_failed_jobs (db : Store) (jid : String) (j : JobRecord)
    (now : Nat) (hnd : (storeKeys db).Nodup) (hf : findJob jid db = some j)
    (hst : j.status = WorkerJobStatus.failed) (hat : j.attempts ≤ 1) :
    findJob jid (managerCycle now db) = some (resetLeaseUpd j)
    ∧ (resetLeaseUpd j).status = WorkerJobStatus.queued
    ∧ (resetLeaseUpd j).worker_id = none
    ∧ (resetLeaseUpd j).lease_expires_at = none
    ∧ (resetLeaseUpd j).error = none
    ∧ (resetLeaseUpd j).attempts = j.attempts := by
  refine ⟨?_, rfl, rfl, rfl, rfl, rfl⟩
  rw [managerCycle_eq, rule_retry_store_eq]
  have h1 : findJob jid (retryStoreFold (get_failed_worker_jobs none (some 1) db) db) =
      some (resetLeaseUpd j) :=
    retryStoreFold_mem (failed_list_keys_nodup hnd) (mem_failed_list hf hst hat) db hf
  have hm : matchesFailedError "normalize" "missing_analysis" (resetLeaseUpd j) = false := by
    simp [matchesFailedError, resetLeaseUpd]
  simp only [reset_failed_jobs]
  rw [findJob_mapIf, h1]
  simp [hm]

/-- C3 (amended) witness: the counterexample store run through the amended
theorem: the failed job is requeued with lease fields and error cleared and
attempts kept at 1. -/
theorem C3_retry_requeues_failed_jobs_witness :
    findJob "j1" (managerCycle 7 C3exampleDb) =
      some (resetLeaseUpd
        { job_type := "analysis", status := WorkerJobStatus.failed,
          attempts := 1, error := some "boom", worker_id := some "w1",
          lease_expires_at := some 600 }) :=
  (C3_retry_requeues_failed_jobs C3exampleDb "j1"
    { job_type := "analysis", status := WorkerJobStatus.failed,
      attempts := 1, error := some "boom", worker_id := some "w1",
      lease_expires_at := some 600 }
    7 (by decide) (by decide) rfl (by decide)).1

/-- C5 — No lease reclamation: a manager cycle leaves every job whose status
is leased completely untouched, whatever the current time (in particular even
when lease_expires_at is long past), and the bulk reset_failed_jobs operation
(also called at normalize-worker startup) never touches a leased job either:
no rule transitions a job from leased back to queued. -/
theorem C5_no_lease_reclamation (db : Store) (jid : String) (j : JobRecord)
    (now : Nat) (jt err : String) (hnd : (storeKeys db).Nodup)
    (hf : findJob jid db = some j) (hst : j.status = WorkerJobStatus.leased) :
    findJob jid (managerCycle now db) = some j
    ∧ findJob jid (reset_failed_jobs jt err now db).1 = some j := by
  have hmatch : ∀ (jt' err' : String), matchesFailedError jt' err' j = false := by
    intro jt' err'
    simp [matchesFailedError, hst]
  constructor
  · rw [managerCycle_eq, rule_retry_store_eq]
    have hnot : jid ∉ (get_failed_worker_jobs none (some 1) db).map (·.1) :=
      not_mem_failed_list hnd hf (by simp [hst])
    have h1 : findJob jid (retryStoreFold (get_failed_worker_jobs none (some 1) db) db) =
        some j := by
      rw [retryStoreFold_not_mem hnot, hf]
    simp only [reset_failed_jobs]
    rw [findJob_mapIf, h1]
    simp [hmatch]
  · simp only [reset_failed_jobs]
    rw [findJob_mapIf, hf]
    simp [hmatch]

/-- C5 witness: a leased job whose lease expired long ago (lease_expires_at =
10, cycle run at now = 99999) survives a manager cycle unchanged. -/
theorem C5_no_lease_reclamation_witness :
    findJob "stuck" (managerCycle 99999
      [("stuck", { job_type := "analysis", status := WorkerJobStatus.leased,
                   attempts := 1, worker_id := some "dead-worker",
                   lease_expires_at := some 10 })]) =
      some { job_type := "analysis", status := WorkerJobStatus.leased,
             attempts := 1, worker_id := some "dead-worker",
             lease_expires_at := some 10 } :=
  (C5_no_lease_reclamation
    [("stuck", { job_type := "analysis", status := WorkerJobStatus.leased,
                 attempts := 1, worker_id := some "dead-worker",
                 lease_expires_at := some 10 })]
    "stuck"
    { job_type := "analysis", status := WorkerJobStatus.leased,
      attempts := 1, worker_id := some "dead-worker", lease_expires_at := some 10 }
    99999 "normalize" "missing_analysis" (by decide) (by decide) rfl).1

/-- C2 — Lease postcondition: both backends' lease operations agree (under
unique document ids) and return at most limit jobs; each returned job was
stored with status queued and exactly the requested job_type, is returned and
stored transitioned to status leased with the caller's worker_id,
lease_expires_at = now + lease_seconds and attempts incremented by one; and
the batch is ordered oldest-first by created_at. -/
theorem C2_lease_postcondition (db : Store) (jt wid : String)
    (limit lease_seconds now : Nat) (hnd : (storeKeys db).Nodup) :
    (firestore_lease_worker_jobs jt wid limit lease_seconds now db =
        sqlite_lease_worker_jobs jt wid limit lease_seconds now db)
    ∧ (sqlite_lease_worker_jobs jt wid limit lease_seconds now db).2.length ≤ limit
    ∧ (∀ c ∈ (sqlite_lease_worker_jobs jt wid limit lease_seconds now db).2,
        c.2.job_type = jt
        ∧ c.2.status = WorkerJobStatus.leased
        ∧ c.2.worker_id = some wid
        ∧ c.2.lease_expires_at = some (now + lease_seconds)
        ∧ ∃ j0, findJob c.1 db = some j0 ∧ j0.status = WorkerJobStatus.queued
            ∧ c.2 = claimUpd wid (now + lease_seconds) now j0
            ∧ c.2.attempts = j0.attempts + 1
            ∧ findJob c.1 (sqlite_lease_worker_jobs jt wid limit lease_seconds now db).1 =
                some c.2)
    ∧ (sqlite_lease_worker_jobs jt wid limit lease_seconds now db).2.Pairwise
        (fun a b => a.2.created_at ≤ b.2.created_at) := by
  refine ⟨firestore_lease_eq_sqlite hnd jt wid limit lease_seconds now, ?_, ?_, ?_⟩
  · simp only [sqlite_lease_worker_jobs, List.length_map]
    exact selectQueued_length_le jt limit db
  · intro c hc
    simp only [sqlite_lease_worker_jobs, List.mem_map] at hc
    rcases hc with ⟨c0, hc0, hceq⟩
    have hsel := selectQueued_mem hc0
    have hfind : findJob c0.1 db = some c0.2 := findJob_eq_of_mem hnd hsel.1
    subst hceq
    refine ⟨hsel.2.1, rfl, rfl, rfl, c0.2, hfind, hsel.2.2, rfl, rfl, ?_⟩
    simp only [sqlite_lease_worker_jobs]
    rw [leaseStore_findJob_mem (selectQueued_keys_nodup hnd)
      (List.mem_map_of_mem (·.1) hc0), hfind]
    rfl
  · simp only [sqlite_lease_worker_jobs]
    rw [List.pairwise_map]
    exact (selectQueued_sorted jt limit db).imp (fun h => h)

/-- Example store for the C2 witness: two queued analysis jobs (the younger
enqueued first in the list) and a queued normalize job. -/
def C2exampleDb : Store :=
  [("a", { job_type := "analysis", status := WorkerJobStatus.queued, created_at := 2 }),
   ("b", { job_type := "analysis", status := WorkerJobStatus.queued, created_at := 1 }),
   ("c", { job_type := "normalize", status := WorkerJobStatus.queued, created_at := 0 })]

/-- C2 witness: leasing 2 analysis jobs from the example store returns the two
analysis jobs oldest-first, leased to the caller, and never the normalize
job. -/
theorem C2_lease_postcondition_witness :
    (storeKeys C2exampleDb).Nodup
    ∧ (firestore_lease_worker_jobs "analysis" "w1" 2 600 100 C2exampleDb =
        sqlite_lease_worker_jobs "analysis" "w1" 2 600 100 C2exampleDb)
    ∧ (sqlite_lease_worker_jobs "analysis" "w1" 2 600 100 C2exampleDb).2.length ≤ 2
    ∧ (∀ c ∈ (sqlite_lease_worker_jobs "analysis" "w1" 2 600 100 C2exampleDb).2,
        c.2.job_type = "analysis"
        ∧ c.2.status = WorkerJobStatus.leased
        ∧ c.2.worker_id = some "w1"
        ∧ c.2.lease_expires_at = some (100 + 600)
        ∧ ∃ j0, findJob c.1 C2exampleDb = some j0 ∧ j0.status = WorkerJobStatus.queued
            ∧ c.2 = claimUpd "w1" (100 + 600) 100 j0
            ∧ c.2.attempts = j0.attempts + 1
            ∧ findJob c.1 (sqlite_lease_worker_jobs "analysis" "w1" 2 600 100 C2exampleDb).1 =
                some c.2)
    ∧ (sqlite_lease_worker_jobs "analysis" "w1" 2 600 100 C2exampleDb).2.Pairwise
        (fun a b => a.2.created_at ≤ b.2.created_at) := by
  have h := C2_lease_postcondition C2exampleDb "analysis" "w1" 2 600 100 (by decide)
  exact ⟨by decide, h.1, h.2.1, h.2.2.1, h.2.2.2⟩

/-! ## Helper lemmas for lease exclusivity -/

theorem runClaims_zero {jid : String} :
    ∀ (ws : List (String × Nat × Nat)) (db : Store),
    (∀ j', findJob jid db = some j' → j'.status ≠ WorkerJobStatus.queued) →
    (runClaims jid ws db).2.count true = 0
  | [], _, _ => rfl
  | (wid, lexp, now) :: rest, db, h => by
      simp only [runClaims]
      rw [claimStep_skip h wid lexp now]
      simp [List.count_cons, runClaims_zero rest db h]

theorem storeKeys_leaseStore (wid : String) (lexp now : Nat) :
    ∀ (sel : List (String × JobRecord)) (db : Store),
    storeKeys (leaseStore wid lexp now sel db) = storeKeys db
  | [], _ => rfl
  | c :: sel, db => by
      rw [leaseStore_cons, storeKeys_leaseStore wid lexp now sel, storeKeys_updJob]

theorem observes_lease_mem {jid jt wid : String} {limit lease_seconds now : Nat}
    {db : Store}
    (h : observes jid (sqlite_lease_worker_jobs jt wid limit lease_seconds now db).2 = true) :
    jid ∈ (selectQueued jt limit db).map (·.1) := by
  simp only [sqlite_lease_worker_jobs, observes, List.any_eq_true] at h
  rcases h with ⟨c, hc, hceq⟩
  rcases List.mem_map.mp hc with ⟨c0, hc0, hceq0⟩
  have h1 : c0.1 = jid := by
    rw [← hceq0] at hceq
    simpa using hceq
  rw [← h1]
  exact List.mem_map_of_mem (·.1) hc0

theorem runLeases_zero {jid : String} :
    ∀ (calls : List LeaseCall) (db : Store), (storeKeys db).Nodup →
    (∀ j', findJob jid db = some j' → j'.status ≠ WorkerJobStatus.queued) →
    (runLeases calls db).2.countP (fun b => observes jid b) = 0
  | [], _, _, _ => rfl
  | call :: rest, db, hnd, h => by
      simp only [runLeases]
      have hobs : observes jid (sqlite_lease_worker_jobs call.job_type call.worker_id
          call.limit call.lease_seconds call.now db).2 = false := by
        by_contra hx
        have hx' : observes jid (sqlite_lease_worker_jobs call.job_type call.worker_id
            call.limit call.lease_seconds call.now db).2 = true := by
          revert hx
          cases observes jid (sqlite_lease_worker_jobs call.job_type call.worker_id
            call.limit call.lease_seconds call.now db).2 <;> simp
        have hmem := observes_lease_mem hx'
        rcases List.mem_map.mp hmem with ⟨c0, hc0, hc0eq⟩
        have hsel := selectQueued_mem hc0
        have hfind : findJob c0.1 db = some c0.2 := findJob_eq_of_mem hnd hsel.1
        rw [hc0eq] at hfind
        exact h c0.2 hfind hsel.2.2
      have hnd1 : (storeKeys (sqlite_lease_worker_jobs call.job_type call.worker_id
          call.limit call.lease_seconds call.now db).1).Nodup := by
        simp only [sqlite_lease_worker_jobs]
        rw [storeKeys_leaseStore]
        exact hnd
      have hpres : ∀ j', findJob jid (sqlite_lease_worker_jobs call.job_type call.worker_id
          call.limit call.lease_seconds call.now db).1 = some j' →
          j'.status ≠ WorkerJobStatus.queued := by
        simp only [sqlite_lease_worker_jobs]
        exact leaseStore_notQueued_pres h _ _ _
      simp [List.countP_cons, hobs, runLeases_zero rest _ hnd1 hpres]

theorem runLeases_atMostOne {jid : String} :
    ∀ (calls : List LeaseCall) (db : Store), (storeKeys db).Nodup →
    (runLeases calls db).2.countP (fun b => observes jid b) ≤ 1
  | [], _, _ => Nat.zero_le 1
  | call :: rest, db, hnd => by
      simp only [runLeases]
      have hnd1 : (storeKeys (sqlite_lease_worker_jobs call.job_type call.worker_id
          call.limit call.lease_seconds call.now db).1).Nodup := by
        simp only [sqlite_lease_worker_jobs]
        rw [storeKeys_leaseStore]
        exact hnd
      by_cases hobs : observes jid (sqlite_lease_worker_jobs call.job_type call.worker_id
          call.limit call.lease_seconds call.now db).2 = true
      · have hmem := observes_lease_mem hobs
        rcases List.mem_map.mp hmem with ⟨c0, hc0, hc0eq⟩
        have hsel := selectQueued_mem hc0
        have hfind : findJob c0.1 db = some c0.2 := findJob_eq_of_mem hnd hsel.1
        have hleased : ∀ j', findJob jid (sqlite_lease_worker_jobs call.job_type
            call.worker_id call.limit call.lease_seconds call.now db).1 = some j' →
            j'.status ≠ WorkerJobStatus.queued := by
          intro j' hj'
          simp only [sqlite_lease_worker_jobs] at hj'
          rw [leaseStore_findJob_mem (selectQueued_keys_nodup hnd) hmem] at hj'
          rw [← hc0eq, hfind] at hj'
          have : claimUpd call.worker_id (call.now + call.lease_seconds) call.now c0.2 = j' :=
            Option.some.inj (by simpa using hj')
          rw [← this]
          simp [claimUpd]
        have hz := runLeases_zero rest _ hnd1 hleased
        simp [List.countP_cons, hobs, hz]
      · have hobs' : observes jid (sqlite_lease_worker_jobs call.job_type call.worker_id
            call.limit call.lease_seconds call.now db).2 = false := by
          revert hobs
          cases observes jid (sqlite_lease_worker_jobs call.job_type call.worker_id
            call.limit call.lease_seconds call.now db).2 <;> simp
        simp [List.countP_cons, hobs', runLeases_atMostOne rest _ hnd1]

/-- C1 — Lease exclusivity: (i) for any nonempty schedule of racing Firestore
claim transactions on a queued job, exactly one attempt observes the job (its
claim succeeds), since each _claim atomically re-checks status == queued
before writing leased; (ii) a claim whose precondition fails leaves the store
untouched and is skipped, not retried; (iii) across any sequence of SQLite
lease transactions (SQLite serialises writers), at most one call's returned
batch contains the job. -/
theorem C1_lease_exclusivity (db : Store) (jid : String) (j : JobRecord)
    (ws : List (String × Nat × Nat)) (calls : List LeaseCall)
    (hnd : (storeKeys db).Nodup) (hf : findJob jid db = some j)
    (hq : j.status = WorkerJobStatus.queued) (hne : ws ≠ []) :
    ((runClaims jid ws db).2.count true = 1)
    ∧ (∀ (db' : Store) (j' : JobRecord) (wid : String) (lexp now' : Nat),
        findJob jid db' = some j' → j'.status ≠ WorkerJobStatus.queued →
        claimStep wid lexp now' jid db' = (db', none))
    ∧ ((runLeases calls db).2.countP (fun b => observes jid b) ≤ 1) := by
  refine ⟨?_, ?_, runLeases_atMostOne calls db hnd⟩
  · cases ws with
    | nil => exact absurd rfl hne
    | cons w rest =>
        rcases w with ⟨wid, lexp, now⟩
        simp only [runClaims]
        rw [claimStep_of_queued hf hq wid lexp now]
        have hinv : ∀ j', findJob jid (updJob jid (claimUpd wid lexp now) db) = some j' →
            j'.status ≠ WorkerJobStatus.queued := by
          intro j' hj'
          rw [findJob_updJob_self, hf] at hj'
          have : claimUpd wid lexp now j = j' := Option.some.inj (by simpa using hj')
          rw [← this]
          simp [claimUpd]
        simp [List.count_cons, runClaims_zero rest _ hinv]
  · intro db' j' wid lexp now' hf' hs'
    refine claimStep_skip ?_ wid lexp now'
    intro j'' hj''
    have : j'' = j' := by
      rw [hf'] at hj''
      exact (Option.some.inj hj'').symm
    rw [this]
    exact hs'

/-- C1 witness: one queued job, two racing claim attempts and two racing
lease calls: exactly one claim succeeds and at most one lease batch holds the
job. -/
theorem C1_lease_exclusivity_witness :
    ((runClaims "j1" [("w1", 600, 0), ("w2", 700, 1)]
        [("j1", { job_type := "analysis", status := WorkerJobStatus.queued })]).2.count true = 1)
    ∧ ((runLeases
        [{ job_type := "analysis", worker_id := "w1", limit := 5, lease_seconds := 600, now := 0 },
         { job_type := "analysis", worker_id := "w2", limit := 5, lease_seconds := 600, now := 1 }]
        [("j1", { job_type := "analysis", status := WorkerJobStatus.queued })]).2.countP
          (fun b => observes "j1" b) ≤ 1) := by
  have h := C1_lease_exclusivity
    [("j1", { job_type := "analysis", status := WorkerJobStatus.queued })]
    "j1" { job_type := "analysis", status := WorkerJobStatus.queued }
    [("w1", 600, 0), ("w2", 700, 1)]
    [{ job_type := "analysis", worker_id := "w1", limit := 5, lease_seconds := 600, now := 0 },
     { job_type := "analysis", worker_id := "w2", limit := 5, lease_seconds := 600, now := 1 }]
    (by decide) (by decide) rfl (by decide)
  exact ⟨h.1, h.2.2⟩
